import Mathlib

/-!
Shallow embedding of `src/formatters.go` from the wlog repository, together
with theorems settling the frozen claims about its specification.

The Go code is modelled as follows: Go strings are lists of characters,
machine integers are `Nat`/`Int` (Go's `int` is 64-bit; bounds are made
explicit where they matter), the output stream and the standard-error side
channel are an explicit state (`WState`) threaded through the writers, a
stream write that can fail is driven by an explicit failure oracle, and a Go
panic (index out of range) is `Option.none`.
-/

namespace Wlog

/-- The ASCII digit byte the Go code produces: `byte('0' + d)` for `d < 10`. -/
def digitChar (d : Nat) : Char := Char.ofNat (48 + d)

/-- Decimal digits of a natural number, least-significant digit first, with
explicit recursion fuel (`i + 1` is always enough, since the argument is
divided by 10 at every step).  This models the digit sequences produced by
Go's `%d`-style formatting verbs for non-negative arguments. -/
def digitsRevFuel : Nat → Nat → List Char
  | 0, _ => []
  | fuel + 1, i => if i < 10 then [digitChar i] else digitChar (i % 10) :: digitsRevFuel fuel (i / 10)

/-- The decimal representation of a natural number, most significant digit
first (`decimalStr 0 = ['0']`). -/
def decimalStr (i : Nat) : List Char := (digitsRevFuel (i + 1) i).reverse

theorem digitsRevFuel_irrel : ∀ f g i, i < f → i < g → digitsRevFuel f i = digitsRevFuel g i := by
  intro f
  induction f with
  | zero => intro g i h; omega
  | succ f ihf =>
    intro g i hf hg
    match g with
    | g + 1 =>
      simp only [digitsRevFuel]
      split
      · rfl
      · rename_i h
        have hd : i / 10 < i := Nat.div_lt_self (by omega) (by omega)
        rw [ihf g (i / 10) (by omega) (by omega)]

theorem decimalStr_lt10 {i : Nat} (h : i < 10) : decimalStr i = [digitChar i] := by
  simp [decimalStr, digitsRevFuel, h]

theorem digitsRevFuel_succ (f i : Nat) :
    digitsRevFuel (f + 1) i
      = if i < 10 then [digitChar i] else digitChar (i % 10) :: digitsRevFuel f (i / 10) := rfl

theorem decimalStr_ge10 {i : Nat} (h : 10 ≤ i) :
    decimalStr i = decimalStr (i / 10) ++ [digitChar (i % 10)] := by
  have hd : i / 10 < i := Nat.div_lt_self (by omega) (by omega)
  show (digitsRevFuel (i + 1) i).reverse = (digitsRevFuel (i / 10 + 1) (i / 10)).reverse ++ _
  rw [digitsRevFuel_succ, if_neg (Nat.not_lt.mpr h), List.reverse_cons,
    digitsRevFuel_irrel i (i / 10 + 1) (i / 10) hd (by omega)]

theorem decimalStr_ne_nil (i : Nat) : decimalStr i ≠ [] := by
  rcases Nat.lt_or_ge i 10 with h | h
  · simp [decimalStr_lt10 h]
  · simp [decimalStr_ge10 h]

theorem decimalStr_length_pos (i : Nat) : 0 < (decimalStr i).length :=
  List.length_pos.mpr (decimalStr_ne_nil i)

/-- A number below `10 ^ k` has at most `k` decimal digits (for positive `k`). -/
theorem decimalStr_length_le : ∀ k i, 0 < k → i < 10 ^ k → (decimalStr i).length ≤ k := by
  intro k
  induction k with
  | zero => omega
  | succ k ih =>
    intro i _ hi
    rcases Nat.lt_or_ge i 10 with h | h
    · simp [decimalStr_lt10 h]
    · have hk : 0 < k := by
        by_contra hk0
        have : k = 0 := by omega
        subst this
        simp [pow_succ, pow_zero] at hi
        omega
      have hdiv : i / 10 < 10 ^ k := by
        apply Nat.div_lt_of_lt_mul
        calc i < 10 ^ (k + 1) := hi
          _ = 10 * 10 ^ k := by ring
      rw [decimalStr_ge10 h]
      simp only [List.length_append, List.length_cons, List.length_nil]
      have := ih (i / 10) hk hdiv
      omega

/-- A number at least `10 ^ k` has more than `k` decimal digits. -/
theorem decimalStr_length_ge : ∀ k i, 10 ^ k ≤ i → k + 1 ≤ (decimalStr i).length := by
  intro k
  induction k with
  | zero => intro i _; exact decimalStr_length_pos i
  | succ k ih =>
    intro i hi
    have h10 : 10 ≤ i := le_trans (Nat.le_self_pow (by omega) 10) hi
    have hdiv : 10 ^ k ≤ i / 10 := by
      rw [Nat.le_div_iff_mul_le (by omega)]
      calc 10 ^ k * 10 = 10 ^ (k + 1) := by ring
        _ ≤ i := hi
    rw [decimalStr_ge10 h10]
    simp only [List.length_append, List.length_cons, List.length_nil]
    have := ih (i / 10) hdiv
    omega

theorem digitChar_isDigit {i : Nat} (h : i < 10) : (digitChar i).isDigit := by
  interval_cases i <;> decide

theorem decimalStr_digits (i : Nat) : ∀ c ∈ decimalStr i, c.isDigit := by
  induction i using Nat.strong_induction_on with
  | _ i ih =>
    rcases Nat.lt_or_ge i 10 with h | h
    · simp [decimalStr_lt10 h, digitChar_isDigit h]
    · rw [decimalStr_ge10 h]
      intro c hc
      rcases List.mem_append.mp hc with hc | hc
      · exact ih (i / 10) (Nat.div_lt_self (by omega) (by omega)) c hc
      · simp at hc
        subst hc
        exact digitChar_isDigit (Nat.mod_lt i (by omega))

/-- Decimal value of a digit character, inverse of `digitChar`. -/
def charVal (c : Char) : Nat := c.toNat - 48

/-- The number denoted by a most-significant-first digit string. -/
def digitsVal (s : List Char) : Nat := s.foldl (fun a c => 10 * a + charVal c) 0

theorem digitsVal_append_digit (s : List Char) (c : Char) :
    digitsVal (s ++ [c]) = 10 * digitsVal s + charVal c := by
  simp [digitsVal, List.foldl_append]

theorem charVal_digitChar {d : Nat} (h : d < 10) : charVal (digitChar d) = d := by
  interval_cases d <;> decide

/-- The decimal representation really denotes the number it was built from. -/
theorem digitsVal_decimalStr (i : Nat) : digitsVal (decimalStr i) = i := by
  induction i using Nat.strong_induction_on with
  | _ i ih =>
    rcases Nat.lt_or_ge i 10 with h | h
    · simp [decimalStr_lt10 h, digitsVal, charVal_digitChar h]
    · rw [decimalStr_ge10 h, digitsVal_append_digit,
        ih (i / 10) (Nat.div_lt_self (by omega) (by omega)),
        charVal_digitChar (Nat.mod_lt i (by omega))]
      omega

/-!
The digit-assembly loop of `itoa` (src/formatters.go):

    var b [20]byte
    bp := len(b) - 1
    for i >= 10 || wid > 1 {
        wid--
        q := i / 10
        b[bp] = byte('0' + i - q*10)
        bp--
        i = q
    }
    b[bp] = byte('0' + i)

`itoaStrFuel` below computes, with explicit fuel, the contents of the slice
`b[bp:]` that the loop leaves in the buffer (the loop fills the buffer from
the right, so the digit written by an iteration is the *last* element of the
slice produced by the iterations up to it).  One byte is written to the
buffer per entry of the resulting list, starting at index 19 and moving
left, so the code panics (index out of range) exactly when the list is
longer than 20.
-/

/-- Fuel-indexed digit-assembly loop of Go's `itoa`; `i + wid.toNat + 1` fuel
is always sufficient. -/
def itoaStrFuel : Nat → Nat → Int → List Char
  | 0, _, _ => []
  | fuel + 1, i, wid =>
    if 10 ≤ i ∨ 1 < wid then itoaStrFuel fuel (i / 10) (wid - 1) ++ [digitChar (i % 10)]
    else [digitChar i]

/-- The exact byte sequence Go's `itoa` assembles in its buffer. -/
def itoaStr (i : Nat) (wid : Int) : List Char := itoaStrFuel (i + wid.toNat + 1) i wid

theorem itoaStrFuel_succ (f : Nat) (i : Nat) (wid : Int) :
    itoaStrFuel (f + 1) i wid
      = if 10 ≤ i ∨ 1 < wid then itoaStrFuel f (i / 10) (wid - 1) ++ [digitChar (i % 10)]
        else [digitChar i] := rfl

theorem itoa_measure_lt {i : Nat} {wid : Int} (h : 10 ≤ i ∨ 1 < wid) :
    i / 10 + (wid - 1).toNat < i + wid.toNat := by
  rcases h with h | h
  · have h1 : i / 10 < i := Nat.div_lt_self (by omega) (by omega)
    omega
  · have h1 : i / 10 ≤ i := Nat.div_le_self i 10
    omega

theorem itoaStrFuel_irrel :
    ∀ f g i (wid : Int), i + wid.toNat < f → i + wid.toNat < g →
      itoaStrFuel f i wid = itoaStrFuel g i wid := by
  intro f
  induction f with
  | zero => intro g i wid h; omega
  | succ f ihf =>
    intro g i wid hf hg
    match g with
    | g + 1 =>
      rw [itoaStrFuel_succ, itoaStrFuel_succ]
      split
      · rename_i h
        have hm := itoa_measure_lt h
        rw [ihf g (i / 10) (wid - 1) (by omega) (by omega)]
      · rfl

/-- The recursion equation of the loop, stated for the fuel-free wrapper. -/
theorem itoaStr_eq (i : Nat) (wid : Int) :
    itoaStr i wid
      = if 10 ≤ i ∨ 1 < wid then itoaStr (i / 10) (wid - 1) ++ [digitChar (i % 10)]
        else [digitChar i] := by
  show itoaStrFuel (i + wid.toNat + 1) i wid = _
  rw [itoaStrFuel_succ]
  split
  · rename_i h
    have hm := itoa_measure_lt h
    rw [itoaStrFuel_irrel (i + wid.toNat) (i / 10 + (wid - 1).toNat + 1) (i / 10) (wid - 1)
      (by omega) (by omega)]
    rfl
  · rfl

/-- What the loop computes: the decimal digits of `i`, left-padded with `'0'`
up to the requested width (natural subtraction makes the padding empty when
the digits already fill the width). -/
theorem itoaStr_pad :
    ∀ m i (wid : Int), i + wid.toNat ≤ m →
      itoaStr i wid = List.replicate (wid.toNat - (decimalStr i).length) '0' ++ decimalStr i := by
  intro m
  induction m with
  | zero =>
    intro i wid h
    have hi : i = 0 := by omega
    have hw : wid.toNat = 0 := by omega
    subst hi
    rw [itoaStr_eq, if_neg (by omega), decimalStr_lt10 (by omega)]
    simp [hw]
  | succ m ihm =>
    intro i wid h
    rw [itoaStr_eq]
    split
    · rename_i hc
      have hm := itoa_measure_lt hc
      rw [ihm (i / 10) (wid - 1) (by omega)]
      rcases hc with hc | hc
      · rw [decimalStr_ge10 hc]
        have hlen : 0 < (decimalStr (i / 10)).length := decimalStr_length_pos _
        have hcount : (wid - 1).toNat - (decimalStr (i / 10)).length
            = wid.toNat - ((decimalStr (i / 10)).length + 1) := by omega
        simp only [List.length_append, List.length_cons, List.length_nil, hcount,
          List.append_assoc]
      · rcases Nat.lt_or_ge i 10 with hi | hi
        · have hdiv : i / 10 = 0 := Nat.div_eq_of_lt hi
          have hmod : i % 10 = i := Nat.mod_eq_of_lt hi
          rw [hdiv, hmod, decimalStr_lt10 hi, decimalStr_lt10 (by omega)]
          have h0 : digitChar 0 = '0' := rfl
          have hcount : (wid - 1).toNat - 1 + 1 = wid.toNat - 1 := by omega
          rw [h0, List.length_singleton, List.length_singleton, ← List.replicate_succ',
            hcount]
        · rw [decimalStr_ge10 hi]
          have hlen : 0 < (decimalStr (i / 10)).length := decimalStr_length_pos _
          have hcount : (wid - 1).toNat - (decimalStr (i / 10)).length
              = wid.toNat - ((decimalStr (i / 10)).length + 1) := by omega
          simp only [List.length_append, List.length_cons, List.length_nil, hcount,
            List.append_assoc]
    · rename_i hc
      push_neg at hc
      rw [decimalStr_lt10 (by omega)]
      have : wid.toNat ≤ 1 := by omega
      have hlen : (List.replicate (wid.toNat - 1) '0') = ([] : List Char) := by
        have : wid.toNat - 1 = 0 := by omega
        simp [this]
      simp [List.length_singleton, hlen]

/-- Fuel-free statement of `itoaStr_pad`. -/
theorem itoaStr_pad' (i : Nat) (wid : Int) :
    itoaStr i wid = List.replicate (wid.toNat - (decimalStr i).length) '0' ++ decimalStr i :=
  itoaStr_pad (i + wid.toNat) i wid le_rfl

/-- The width acts as a minimum: the buffer slice has `max wid dlen` bytes. -/
theorem itoaStr_length (i : Nat) (wid : Int) :
    (itoaStr i wid).length = max wid.toNat (decimalStr i).length := by
  rw [itoaStr_pad']
  simp only [List.length_append, List.length_replicate]
  omega

theorem itoaStr_length_le20 {i : Nat} {wid : Int} (hi : i < 10 ^ 20) (hw : wid ≤ 20) :
    (itoaStr i wid).length ≤ 20 := by
  rw [itoaStr_length]
  have h1 : (decimalStr i).length ≤ 20 := decimalStr_length_le 20 i (by omega) hi
  omega

/-!  The output stream and the standard-error side channel. -/

/-- State threaded through the writers: the bytes successfully written to the
output stream, the diagnostic lines printed to standard error, and a counter
of write operations attempted so far (used to address the failure oracle). -/
structure WState where
  out : List Char
  errOut : List String
  idx : Nat
deriving DecidableEq

/-- One attempted write of `data` to the stream.  The failure oracle `fails`
says whether the write numbered `s.idx` fails and with which error message;
on failure the given diagnostic line goes to standard error instead
(modelling the `fmt.Fprintf(os.Stderr, ...)` calls in src/formatters.go). -/
def writeOp (fails : Nat → Option String) (s : WState) (data : List Char)
    (diag : String → String) : WState :=
  match fails s.idx with
  | none => { out := s.out ++ data, errOut := s.errOut, idx := s.idx + 1 }
  | some e => { out := s.out, errOut := s.errOut ++ [diag e], idx := s.idx + 1 }

/-- Model of `writeString` (src/formatters.go): writes the string, and on a
write error prints `could not write entry log, err: ...` to standard error;
it propagates nothing. -/
def writeString (fails : Nat → Option String) (s : WState) (str : List Char) : WState :=
  writeOp fails s str (fun e => "could not write entry log, err: " ++ e)

/-- Model of `itoa` (src/formatters.go): assembles `itoaStr i wid` in the
20-byte buffer and writes the filled slice with one `w.Write` call; on a
write error it prints `failed adding zero padding to ...` to standard error.
`none` models the index-out-of-range panic that occurs when the assembled
slice would need more than the 20 available bytes. -/
def itoa (fails : Nat → Option String) (s : WState) (i : Nat) (wid : Int) : Option WState :=
  if (itoaStr i wid).length ≤ 20 then
    some (writeOp fails s (itoaStr i wid) (fun _ => "failed adding zero padding to " ++ toString i))
  else none

/-!  The logger state the formatters consume. -/

/-- Modelled from the spec: the severity level is a closed enum
{Debug, Info, Warning, Error, Fatal} carried as an integer-valued constant
(the level declarations live in the logger file, which is not in src/);
because the underlying type is an integer, out-of-range values exist. -/
abbrev Level := Int

/-- Modelled from the spec: the Debug level constant. -/
def Dbg : Level := 0

/-- Modelled from the spec: the Info level constant. -/
def Nfo : Level := 1

/-- Modelled from the spec: the Warning level constant. -/
def Wrn : Level := 2

/-- Modelled from the spec: the Error level constant. -/
def Err : Level := 3

/-- Modelled from the spec: the Fatal level constant. -/
def Ftl : Level := 4

/-- Modelled from the spec: `Level.String`, the canonical lower-case level
names `"debug"`, `"info"`, `"warn"`, `"error"`, `"fatal"` used by the
structured formatter (the method itself is not in src/). -/
def levelString (lvl : Level) : String :=
  if lvl = Dbg then "debug"
  else if lvl = Nfo then "info"
  else if lvl = Wrn then "warn"
  else if lvl = Err then "error"
  else if lvl = Ftl then "fatal"
  else ""

/-- Modelled from the spec: a value of the field mapping is arbitrary caller
data; the formatter itself only ever stores strings, so one constructor for
strings and one for everything else suffices. -/
inductive Value where
  | str : String → Value
  | other : Nat → Value
deriving DecidableEq

/-- Modelled from the spec: the string-keyed field mapping owned by the
logger, as a lookup function. -/
def Fields := String → Option Value

/-- Go map assignment `m[k] = v`: later assignments to the same key
overwrite. -/
def Fields.insert (m : Fields) (k : String) (v : Value) : Fields :=
  fun q => if q = k then some v else m q

/-- Modelled from the spec: the part of the external `Logger` the formatters
read (and, for the structured formatter, write): the mutable field mapping
and the current severity level (the `Logger` type is not in src/). -/
structure Logger where
  fields : Fields
  logLevel : Level

/-!  Timestamps. -/

/-- A wall-clock instant as the formatters consume it via `Date()`,
`Clock()` and `Nanosecond()` of Go's `time.Time`. -/
structure Time where
  year : Nat
  month : Nat
  day : Nat
  hour : Nat
  min : Nat
  sec : Nat
  nanosecond : Nat
deriving DecidableEq

/-- The ranges Go's `time.Time` accessors guarantee: month 1–12, day 1–31,
hour 0–23, minute/second 0–59, nanoseconds below one second; the year is a
machine integer (we consider the non-negative ones, which include every
timestamp the claims quantify over). -/
def Time.Valid (t : Time) : Prop :=
  t.year < 2 ^ 63 ∧ 1 ≤ t.month ∧ t.month ≤ 12 ∧ 1 ≤ t.day ∧ t.day ≤ 31 ∧
    t.hour ≤ 23 ∧ t.min ≤ 59 ∧ t.sec ≤ 59 ∧ t.nanosecond < 10 ^ 9

instance (t : Time) : Decidable t.Valid := by
  unfold Time.Valid
  infer_instance

/-- Go's `%0Nd` verb for a non-negative argument: decimal digits,
left-padded with zeros to a minimum width. -/
def sprintf0 (w : Nat) (n : Nat) : List Char :=
  List.replicate (w - (decimalStr n).length) '0' ++ decimalStr n

/-- Model of `getTimestamp` (src/formatters.go):
`fmt.Sprintf("%d-%02d-%02d %02d:%02d:%02d:%06d", year, month, day, hour,
min, sec, nano/1e3)` — note the year goes through plain `%d`. -/
def getTimestampList (t : Time) : List Char :=
  decimalStr t.year ++ ['-'] ++ sprintf0 2 t.month ++ ['-'] ++ sprintf0 2 t.day ++ [' ']
    ++ sprintf0 2 t.hour ++ [':'] ++ sprintf0 2 t.min ++ [':'] ++ sprintf0 2 t.sec ++ [':']
    ++ sprintf0 6 (t.nanosecond / 1000)

/-- `getTimestamp` as the Go `string` it returns. -/
def getTimestamp (t : Time) : String := ⟨getTimestampList t⟩

/-!  The two formatters. -/

/-- The `switch l.logLevel` in `TextFormatter.Format` (src/formatters.go);
`var level string` starts out empty and stays empty when no case matches. -/
def levelLabel (lvl : Level) : String :=
  if lvl = Dbg then "DBG "
  else if lvl = Nfo then "NFO "
  else if lvl = Wrn then "WRN "
  else if lvl = Err then "ERR "
  else if lvl = Ftl then "FTL "
  else ""

/-- Model of `TextFormatter.Format` (src/formatters.go), threading the
stream state through the exact sequence of `itoa`/`writeString` calls.
`none` models a panic escaping from `itoa`; the `Option String` in the
result is the error the function returns — literally `nil` (`none`) on the
single return path of the Go code. -/
def textFormat (fails : Nat → Option String) (s0 : WState) (l : Logger) (msg : List Char)
    (entryTime : Time) : Option (WState × Option String) := do
  let s ← itoa fails s0 entryTime.year 4
  let s := writeString fails s ['-']
  let s ← itoa fails s entryTime.month 2
  let s := writeString fails s ['-']
  let s ← itoa fails s entryTime.day 2
  let s := writeString fails s [' ']
  let s ← itoa fails s entryTime.hour 2
  let s := writeString fails s [':']
  let s ← itoa fails s entryTime.min 2
  let s := writeString fails s [':']
  let s ← itoa fails s entryTime.sec 2
  let s := writeString fails s [':']
  let s ← itoa fails s (entryTime.nanosecond / 1000) 6
  let s := writeString fails s [' ']
  let s := writeString fails s (levelLabel l.logLevel).toList
  let s := writeString fails s msg
  let s := if msg = [] ∨ msg.getLast? ≠ some '\n' then writeString fails s ['\n'] else s
  return (s, none)

/-- The three map assignments at the top of `JSONFormatter.Format`
(src/formatters.go): `l.fields["msg"] = msg`,
`l.fields["timestamp"] = getTimestamp(entryTime)`,
`l.fields["level"] = l.logLevel.String()`. -/
def injectFields (l : Logger) (msg : String) (entryTime : Time) : Fields :=
  ((l.fields.insert "msg" (Value.str msg)).insert "timestamp"
      (Value.str (getTimestamp entryTime))).insert "level"
    (Value.str (levelString l.logLevel))

/-- Model of `JSONFormatter.Format` (src/formatters.go).  The JSON encoder
is external (`encoding/json`); it is modelled abstractly by `encode`, which
returns `some e` when `encoder.Encode` fails with error text `e` and `none`
when it succeeds.  The result is the field mapping after the in-place
mutation together with the error the call returns. -/
def jsonFormat (encode : Fields → Option String) (l : Logger) (msg : String)
    (entryTime : Time) : Fields × Option String :=
  let f := injectFields l msg entryTime
  match encode f with
  | some e => (f, some ("failed to marshal fields to JSON, " ++ e))
  | none => (f, none)

/-!  Pure descriptions of the text line, used to state the claims. -/

/-- The date-and-time part of the text line (steps 1–4 of the spec's
algorithm): what the first thirteen write operations of
`TextFormatter.Format` put on the stream. -/
def textStamp (t : Time) : List Char :=
  itoaStr t.year 4 ++ ['-'] ++ itoaStr t.month 2 ++ ['-'] ++ itoaStr t.day 2
    ++ [' '] ++ itoaStr t.hour 2 ++ [':'] ++ itoaStr t.min 2 ++ [':']
    ++ itoaStr t.sec 2 ++ [':'] ++ itoaStr (t.nanosecond / 1000) 6

/-- The newline `TextFormatter.Format` appends after the message: one `'\n'`
when the message is empty or does not already end with `'\n'`, nothing
otherwise. -/
def nlSuffix (msg : List Char) : List Char :=
  if msg = [] ∨ msg.getLast? ≠ some '\n' then ['\n'] else []

/-- The complete text line. -/
def textLine (lvl : Level) (msg : List Char) (t : Time) : List Char :=
  textStamp t ++ [' '] ++ (levelLabel lvl).toList ++ msg ++ nlSuffix msg

/-- Run `TextFormatter.Format` on a fresh stream with no write failures and
keep what the claims talk about: the bytes written to the stream and the
returned error. -/
def runText (lvl : Level) (msg : List Char) (t : Time) : Option (List Char × Option String) :=
  (textFormat (fun _ => none) ⟨[], [], 0⟩ ⟨fun _ => none, lvl⟩ msg t).map
    (fun r => (r.1.out, r.2))

/-!  Running the text formatter. -/

theorem itoa_eq_some {i : Nat} {wid : Int} (h : (itoaStr i wid).length ≤ 20)
    (fails : Nat → Option String) (s : WState) :
    itoa fails s i wid
      = some (writeOp fails s (itoaStr i wid)
          (fun _ => "failed adding zero padding to " ++ toString i)) := by
  unfold itoa
  rw [if_pos h]

theorem writeOp_ok (fails : Nat → Option String) (s : WState) (data : List Char)
    (diag : String → String) (h : fails s.idx = none) :
    writeOp fails s data diag = { out := s.out ++ data, errOut := s.errOut, idx := s.idx + 1 } := by
  unfold writeOp
  rw [h]

theorem writeString_fails (fails : Nat → Option String) (s : WState) (str : List Char)
    (e : String) (h : fails s.idx = some e) :
    writeString fails s str
      = { out := s.out,
          errOut := s.errOut ++ ["could not write entry log, err: " ++ e],
          idx := s.idx + 1 } := by
  unfold writeString writeOp
  rw [h]

/-- The seven `itoa` calls of `TextFormatter.Format` never overrun the
20-byte buffer on a real timestamp. -/
theorem textFormat_bounds (t : Time) (hv : t.Valid) :
    (itoaStr t.year 4).length ≤ 20 ∧ (itoaStr t.month 2).length ≤ 20 ∧
      (itoaStr t.day 2).length ≤ 20 ∧ (itoaStr t.hour 2).length ≤ 20 ∧
      (itoaStr t.min 2).length ≤ 20 ∧ (itoaStr t.sec 2).length ≤ 20 ∧
      (itoaStr (t.nanosecond / 1000) 6).length ≤ 20 := by
  obtain ⟨hy, hm1, hm2, hd1, hd2, hh, hmi, hs, hn⟩ := hv
  have hy' : t.year < 10 ^ 20 := lt_of_lt_of_le hy (by norm_num)
  have hnano : t.nanosecond / 1000 < 10 ^ 20 := by
    have h9 : t.nanosecond < 1000000000 := by
      have : (10 : ℕ) ^ 9 = 1000000000 := by norm_num
      omega
    have : t.nanosecond / 1000 < 1000000 := by omega
    exact lt_of_lt_of_le this (by norm_num)
  refine ⟨itoaStr_length_le20 hy' (by norm_num),
    itoaStr_length_le20 (lt_of_le_of_lt hm2 (by norm_num)) (by norm_num),
    itoaStr_length_le20 (lt_of_le_of_lt hd2 (by norm_num)) (by norm_num),
    itoaStr_length_le20 (lt_of_le_of_lt hh (by norm_num)) (by norm_num),
    itoaStr_length_le20 (lt_of_le_of_lt hmi (by norm_num)) (by norm_num),
    itoaStr_length_le20 (lt_of_le_of_lt hs (by norm_num)) (by norm_num),
    itoaStr_length_le20 hnano (by norm_num)⟩

/-- On a real timestamp, whatever the stream does, `TextFormatter.Format`
completes without panicking and returns `nil`. -/
theorem textFormat_returns_nil (fails : Nat → Option String) (s0 : WState) (l : Logger)
    (msg : List Char) (t : Time) (hv : t.Valid) :
    (textFormat fails s0 l msg t).map Prod.snd = some none := by
  obtain ⟨b1, b2, b3, b4, b5, b6, b7⟩ := textFormat_bounds t hv
  simp only [textFormat, itoa_eq_some b1, itoa_eq_some b2, itoa_eq_some b3, itoa_eq_some b4,
    itoa_eq_some b5, itoa_eq_some b6, itoa_eq_some b7, Option.bind_eq_bind, Option.some_bind, Option.pure_def,
    Option.map_some']

/-- With no write failures, the bytes the text formatter puts on a fresh
stream are exactly `textLine`, and the returned error is `nil`. -/
theorem runText_eq (lvl : Level) (msg : List Char) (t : Time) (hv : t.Valid) :
    runText lvl msg t = some (textLine lvl msg t, none) := by
  obtain ⟨b1, b2, b3, b4, b5, b6, b7⟩ := textFormat_bounds t hv
  unfold runText
  simp only [textFormat, itoa_eq_some b1, itoa_eq_some b2, itoa_eq_some b3, itoa_eq_some b4,
    itoa_eq_some b5, itoa_eq_some b6, itoa_eq_some b7, Option.bind_eq_bind, Option.some_bind, Option.pure_def,
    Option.map_some', writeString, writeOp]
  by_cases hc : msg = [] ∨ msg.getLast? ≠ some '\n' <;>
    simp [hc, textLine, textStamp, nlSuffix, List.append_assoc]

/-!  Concrete timestamps used by the examples and counterexamples. -/

/-- 2024-01-05T08:03:09.123456 (nanoseconds 123456000). -/
def t2024 : Time := ⟨2024, 1, 5, 8, 3, 9, 123456000⟩

/-- Year 5 AD: a perfectly valid Go `time.Time` (its zero value is even
earlier, year 1), reachable e.g. via `time.Date(5, 1, 2, 3, 4, 6, 123456789,
time.UTC)`. -/
def t0005 : Time := ⟨5, 1, 2, 3, 4, 6, 123456789⟩

/-- Claim C1: for level Info, message "started" and timestamp
2024-01-05T08:03:09.123456, `TextFormatter.Format` writes exactly the bytes
`"2024-01-05 08:03:09:123456 NFO started\n"` to the stream — zero-padded
date, space, zero-padded time with truncated 6-digit microseconds, space,
the 4-character level label, the message verbatim, one trailing newline —
and returns no error. -/
theorem text_format_example :
    runText Nfo "started".toList t2024
      = some ("2024-01-05 08:03:09:123456 NFO started\n".toList, none) := by
  decide

/-- Claim C5, counterexample to the unrestricted claim: at `i = 0` and
requested width 21 the Go code indexes the 20-byte buffer at -1 and panics,
so nothing at all is written — the claim's "for every requested width w"
fails. -/
theorem itoa_width21_cex :
    itoa (fun _ => none) ⟨[], [], 0⟩ 0 21 = none := by
  decide

/-- Claim C5 (amended: for widths of at most the 20-byte buffer capacity):
`itoa` writes the decimal digits of `i` left-padded with `'0'` to exactly
width `w`; when the natural decimal length of `i` is at least `w`, the full
untruncated digit sequence is written with no padding — the width is a
minimum, never a maximum, and no truncation occurs (the digit string always
has value `i` and consists of digits only). -/
theorem itoa_min_width (i : Nat) (wid : Int) (hi : i < 2 ^ 63) (hw : wid ≤ 20) :
    itoaStr i wid = List.replicate (wid.toNat - (decimalStr i).length) '0' ++ decimalStr i ∧
      (wid.toNat ≤ (decimalStr i).length → itoaStr i wid = decimalStr i) ∧
      (itoaStr i wid).length = max wid.toNat (decimalStr i).length ∧
      digitsVal (decimalStr i) = i ∧
      (∀ c ∈ decimalStr i, c.isDigit) ∧
      (∀ (fails : Nat → Option String) (s : WState), fails s.idx = none →
        itoa fails s i wid
          = some { out := s.out ++ itoaStr i wid, errOut := s.errOut, idx := s.idx + 1 }) := by
  have hi20 : i < 10 ^ 20 := lt_of_lt_of_le hi (by norm_num)
  have hb : (itoaStr i wid).length ≤ 20 := itoaStr_length_le20 hi20 hw
  refine ⟨itoaStr_pad' i wid, ?_, itoaStr_length i wid, digitsVal_decimalStr i,
    decimalStr_digits i, ?_⟩
  · intro hge
    rw [itoaStr_pad']
    have h0 : wid.toNat - (decimalStr i).length = 0 := by omega
    simp [h0]
  · intro fails s h
    rw [itoa_eq_some hb, writeOp_ok fails s _ _ h]

/-- Witness for C5: width 3 pads 7 to `"007"` and the write happens; width 2
on 123 emits the full `"123"` unpadded. -/
theorem itoa_min_width_w :
    (itoaStr 7 3 = List.replicate ((3 : Int).toNat - (decimalStr 7).length) '0' ++ decimalStr 7
        ∧ itoa (fun _ => none) ⟨[], [], 0⟩ 7 3
            = some { out := ([] : List Char) ++ itoaStr 7 3, errOut := [], idx := 0 + 1 })
      ∧ itoaStr 123 2 = decimalStr 123 := by
  refine ⟨⟨(itoa_min_width 7 3 (by norm_num) (by norm_num)).1, ?_⟩,
    (itoa_min_width 123 2 (by norm_num) (by norm_num)).2.1 (by decide)⟩
  exact (itoa_min_width 7 3 (by norm_num) (by norm_num)).2.2.2.2.2 (fun _ => none)
    ⟨[], [], 0⟩ rfl

/-- Claim C10: for every non-negative machine integer `i` and width `w ≤ 20`
the reverse-fill index of `itoa`'s 20-byte buffer never becomes negative, so
the function cannot panic; for `w > 20` the bound is violated already at
`i = 0`. -/
theorem itoa_buffer_bounds :
    (∀ (i : Nat) (wid : Int) (fails : Nat → Option String) (s : WState),
        i < 2 ^ 63 → wid ≤ 20 → itoa fails s i wid ≠ none) ∧
      (∀ wid : Int, 20 < wid → itoa (fun _ => none) ⟨[], [], 0⟩ 0 wid = none) := by
  constructor
  · intro i wid fails s hi hw
    have hb := itoaStr_length_le20 (lt_of_lt_of_le hi (by norm_num)) hw
    rw [itoa_eq_some hb]
    exact Option.some_ne_none _
  · intro wid hw
    have h0 : decimalStr 0 = ['0'] := rfl
    have hlen : (itoaStr 0 wid).length = wid.toNat := by
      rw [itoaStr_length, h0]
      simp
      omega
    unfold itoa
    rw [if_neg]
    rw [hlen]
    omega

/-- Witness for C10: width 20 stays in bounds at `i = 5`; width 21 panics. -/
theorem itoa_buffer_bounds_w :
    itoa (fun _ => none) ⟨[], [], 0⟩ 5 20 ≠ none ∧
      itoa (fun _ => none) ⟨[], [], 0⟩ 0 21 = none :=
  ⟨itoa_buffer_bounds.1 5 20 (fun _ => none) ⟨[], [], 0⟩ (by norm_num) (by norm_num),
    itoa_buffer_bounds.2 21 (by norm_num)⟩

/-!  The timestamp pattern of claim C2. -/

/-- The pattern `YYYY-MM-DD HH:MM:SS:MMMMMM`: a 4-digit year, then 2-digit
month, day, hour, minute, second and 6-digit microseconds, all digits, with
the literal separators of the pattern. -/
def tsPattern (s : List Char) : Prop :=
  ∃ y mo d h mi se us : List Char,
    s = y ++ ['-'] ++ mo ++ ['-'] ++ d ++ [' '] ++ h ++ [':'] ++ mi ++ [':'] ++ se ++ [':'] ++ us
      ∧ y.length = 4 ∧ mo.length = 2 ∧ d.length = 2 ∧ h.length = 2 ∧ mi.length = 2
      ∧ se.length = 2 ∧ us.length = 6
      ∧ (∀ c ∈ y, c.isDigit) ∧ (∀ c ∈ mo, c.isDigit) ∧ (∀ c ∈ d, c.isDigit)
      ∧ (∀ c ∈ h, c.isDigit) ∧ (∀ c ∈ mi, c.isDigit) ∧ (∀ c ∈ se, c.isDigit)
      ∧ (∀ c ∈ us, c.isDigit)

/-- A string matching the pattern has exactly 26 characters. -/
theorem tsPattern_length {s : List Char} (h : tsPattern s) : s.length = 26 := by
  obtain ⟨y, mo, d, hh, mi, se, us, hs, hy, hmo, hd, hhh, hmi, hse, hus, _⟩ := h
  subst hs
  simp only [List.length_append, List.length_cons, List.length_nil, hy, hmo, hd, hhh,
    hmi, hse, hus]

theorem sprintf0_length (w n : Nat) : (sprintf0 w n).length = max w (decimalStr n).length := by
  simp only [sprintf0, List.length_append, List.length_replicate]
  omega

theorem sprintf0_digits (w n : Nat) : ∀ c ∈ sprintf0 w n, c.isDigit := by
  intro c hc
  rcases List.mem_append.mp hc with hc | hc
  · have h0 := List.eq_of_mem_replicate hc
    subst h0
    decide
  · exact decimalStr_digits n c hc

/-- Claim C2, counterexample: the year goes through plain `%d`, so for the
valid timestamp with year 5 the string is `"5-01-02 03:04:06:123456"`, which
does not begin with a 4-digit zero-padded year (it is 23 characters instead
of 26). -/
theorem getTimestamp_pattern_cex :
    Time.Valid t0005 ∧ ¬ tsPattern (getTimestampList t0005) := by
  refine ⟨by decide, fun h => ?_⟩
  have h26 := tsPattern_length h
  have h23 : (getTimestampList t0005).length = 23 := by decide
  omega

/-- Claim C2 (amended: for timestamps whose year has exactly four digits,
i.e. 1000 ≤ year ≤ 9999): `getTimestamp` matches the exact pattern
`YYYY-MM-DD HH:MM:SS:MMMMMM` — the year is rendered by `%d`, unpadded, so
the 4-digit-year shape holds exactly when the year itself has four
digits. -/
theorem getTimestamp_pattern (t : Time) (hv : t.Valid) (hy1 : 1000 ≤ t.year)
    (hy2 : t.year ≤ 9999) : tsPattern (getTimestampList t) := by
  obtain ⟨hy, hm1, hm2, hd1, hd2, hh, hmi, hs, hn⟩ := hv
  have e2 : (10 : ℕ) ^ 2 = 100 := by norm_num
  have e3 : (10 : ℕ) ^ 3 = 1000 := by norm_num
  have e4 : (10 : ℕ) ^ 4 = 10000 := by norm_num
  have e6 : (10 : ℕ) ^ 6 = 1000000 := by norm_num
  have e9 : (10 : ℕ) ^ 9 = 1000000000 := by norm_num
  have ylen : (decimalStr t.year).length = 4 := by
    have hge := decimalStr_length_ge 3 t.year (by rw [e3]; omega)
    have hle := decimalStr_length_le 4 t.year (by omega) (by rw [e4]; omega)
    omega
  have l2 : ∀ n : Nat, n < 100 → (sprintf0 2 n).length = 2 := by
    intro n hn2
    rw [sprintf0_length]
    have h1 := decimalStr_length_le 2 n (by omega) (by rw [e2]; omega)
    have h2 := decimalStr_length_pos n
    omega
  have uslen : (sprintf0 6 (t.nanosecond / 1000)).length = 6 := by
    rw [sprintf0_length]
    have hn' : t.nanosecond < 1000000000 := by rw [e9] at hn; omega
    have h1 := decimalStr_length_le 6 (t.nanosecond / 1000) (by omega) (by rw [e6]; omega)
    have h2 := decimalStr_length_pos (t.nanosecond / 1000)
    omega
  exact ⟨decimalStr t.year, sprintf0 2 t.month, sprintf0 2 t.day, sprintf0 2 t.hour,
    sprintf0 2 t.min, sprintf0 2 t.sec, sprintf0 6 (t.nanosecond / 1000), rfl, ylen,
    l2 _ (by omega), l2 _ (by omega), l2 _ (by omega), l2 _ (by omega), l2 _ (by omega),
    uslen, decimalStr_digits t.year, sprintf0_digits 2 t.month, sprintf0_digits 2 t.day,
    sprintf0_digits 2 t.hour, sprintf0_digits 2 t.min, sprintf0_digits 2 t.sec,
    sprintf0_digits 6 (t.nanosecond / 1000)⟩

/-- Witness for C2's amended theorem at the concrete 2024 timestamp. -/
theorem getTimestamp_pattern_w : tsPattern (getTimestampList t2024) :=
  getTimestamp_pattern t2024 (by decide) (by decide) (by decide)

/-- The two duplicated timestamp implementations do agree whenever the year
has at least four digits: every other field is padded identically by both,
and a year of at least 1000 needs no padding. -/
theorem textStamp_agrees_for_big_years (t : Time) (hy : 1000 ≤ t.year) :
    textStamp t = getTimestampList t := by
  have e3 : (10 : ℕ) ^ 3 = 1000 := by norm_num
  have hyl : 4 ≤ (decimalStr t.year).length := decimalStr_length_ge 3 t.year (by rw [e3]; omega)
  have hyr : itoaStr t.year 4 = decimalStr t.year := by
    rw [itoaStr_pad']
    have h0 : (4 : Int).toNat - (decimalStr t.year).length = 0 := by
      have h4 : (4 : Int).toNat = 4 := rfl
      omega
    rw [h0]
    simp
  have hw2 : ∀ n : Nat, itoaStr n 2 = sprintf0 2 n := by
    intro n
    rw [itoaStr_pad', sprintf0, show Int.toNat 2 = 2 from rfl]
  have hw6 : itoaStr (t.nanosecond / 1000) 6 = sprintf0 6 (t.nanosecond / 1000) := by
    rw [itoaStr_pad', sprintf0, show Int.toNat 6 = 6 from rfl]
  unfold textStamp getTimestampList
  rw [hyr, hw2 t.month, hw2 t.day, hw2 t.hour, hw2 t.min, hw2 t.sec, hw6]

/-- Claim C3: the date-and-time prefix `TextFormatter.Format` writes and the
string `getTimestamp` returns — the two independent implementations of the
same format — disagree on the valid timestamp with year 5: the text
formatter zero-pads the year to `"0005"`, `getTimestamp` renders `"5"`. -/
theorem timestamp_helpers_diverge :
    Time.Valid t0005 ∧
      textStamp t0005 = "0005-01-02 03:04:06:123456".toList ∧
      getTimestampList t0005 = "5-01-02 03:04:06:123456".toList ∧
      textStamp t0005 ≠ getTimestampList t0005 :=
  ⟨by decide, by decide, by decide, by decide⟩

/-!  Trailing newlines. -/

/-- Whether a reversed character list starts with two newlines. -/
def twoNlHead : List Char → Bool
  | c1 :: c2 :: _ => c1 == '\n' && c2 == '\n'
  | _ => false

/-- Whether a character list ends with two consecutive newlines. -/
def endsTwoNl (xs : List Char) : Bool := twoNlHead xs.reverse

theorem twoNlHead_false {c1 c2 : Char} (rest : List Char) (h : c1 = '\n' → c2 ≠ '\n') :
    twoNlHead (c1 :: c2 :: rest) = false := by
  by_cases h1 : c1 = '\n'
  · simp [twoNlHead, h1, h h1]
  · simp [twoNlHead, h1]

/-- Every level label (including the empty fallback) puts a space — never a
newline — right before the message. -/
theorem levelLabel_rev (lvl : Level) :
    (levelLabel lvl).toList.reverse = [] ∨
      ∃ q, (levelLabel lvl).toList.reverse = ' ' :: q := by
  unfold levelLabel
  split_ifs
  · exact Or.inr ⟨['G', 'B', 'D'], by decide⟩
  · exact Or.inr ⟨['O', 'F', 'N'], by decide⟩
  · exact Or.inr ⟨['N', 'R', 'W'], by decide⟩
  · exact Or.inr ⟨['R', 'R', 'E'], by decide⟩
  · exact Or.inr ⟨['L', 'T', 'F'], by decide⟩
  · exact Or.inl (by decide)

/-- Reversed, everything the text formatter writes before the message starts
with the space that precedes the message. -/
theorem pre_msg_space (lvl : Level) (t : Time) :
    ∃ r, (textStamp t ++ [' '] ++ (levelLabel lvl).toList).reverse = ' ' :: r := by
  rcases levelLabel_rev lvl with h | ⟨q, h⟩
  · refine ⟨(textStamp t).reverse, ?_⟩
    rw [List.reverse_append, List.reverse_append, h]
    rfl
  · refine ⟨q ++ ' ' :: (textStamp t).reverse, ?_⟩
    rw [List.reverse_append, List.reverse_append, h]
    rfl

/-- When the message does not itself end in two newlines, neither does the
text line: the appended newline (when present) follows a non-newline
character, and when nothing is appended the message's own tail decides. -/
theorem textLine_no_double (lvl : Level) (msg : List Char) (t : Time)
    (hm : endsTwoNl msg = false) : endsTwoNl (textLine lvl msg t) = false := by
  obtain ⟨r, hr⟩ := pre_msg_space lvl t
  have hL : textLine lvl msg t
      = (textStamp t ++ [' '] ++ (levelLabel lvl).toList) ++ (msg ++ nlSuffix msg) := by
    simp [textLine, List.append_assoc]
  have hrev0 : (textLine lvl msg t).reverse
      = (nlSuffix msg).reverse ++ (msg.reverse ++ (' ' :: r)) := by
    rw [hL, List.reverse_append, List.reverse_append, hr, List.append_assoc]
  unfold endsTwoNl
  rw [hrev0]
  cases hrev : msg.reverse with
  | nil =>
    have hmsg : msg = [] := by
      have h1 := congrArg List.reverse hrev
      simpa using h1
    subst hmsg
    have hnl : nlSuffix [] = ['\n'] := rfl
    rw [hnl]
    have hshape : (['\n'] : List Char).reverse ++ (([] : List Char) ++ (' ' :: r))
        = '\n' :: ' ' :: r := by simp
    rw [hshape]
    exact twoNlHead_false _ (fun _ => by decide)
  | cons c tl =>
    have hmsg_ne : msg ≠ [] := by
      intro h0
      rw [h0] at hrev
      simp at hrev
    have hlast : msg.getLast? = some c := by
      rw [← List.head?_reverse, hrev]
      rfl
    by_cases hcnl : c = '\n'
    · have hnl : nlSuffix msg = [] := by
        unfold nlSuffix
        rw [if_neg]
        push_neg
        exact ⟨hmsg_ne, by rw [hlast, hcnl]⟩
      rw [hnl]
      cases tl with
      | nil =>
        subst hcnl
        have hshape : (([] : List Char)).reverse ++ (['\n'] ++ (' ' :: r))
            = '\n' :: ' ' :: r := by simp
        rw [hshape]
        exact twoNlHead_false _ (fun _ => by decide)
      | cons c2 tl2 =>
        have hc2 : c2 ≠ '\n' := by
          intro h2
          unfold endsTwoNl at hm
          rw [hrev] at hm
          simp [twoNlHead, hcnl, h2] at hm
        subst hcnl
        have hshape : (([] : List Char)).reverse ++ (('\n' :: c2 :: tl2) ++ (' ' :: r))
            = '\n' :: c2 :: (tl2 ++ ' ' :: r) := by simp
        rw [hshape]
        exact twoNlHead_false _ (fun _ => hc2)
    · have hnl : nlSuffix msg = ['\n'] := by
        unfold nlSuffix
        rw [if_pos]
        right
        rw [hlast]
        simp [hcnl]
      rw [hnl]
      have hshape : (['\n'] : List Char).reverse ++ ((c :: tl) ++ (' ' :: r))
          = '\n' :: c :: (tl ++ ' ' :: r) := by simp
      rw [hshape]
      exact twoNlHead_false _ (fun _ => hcnl)

/-- Claim C4, counterexample to "the output never ends with two consecutive
newline characters": a message that itself ends in two newlines is written
verbatim, nothing is appended, and the output ends in `"\n\n"`. -/
theorem text_double_newline_cex :
    (runText Nfo "x\n\n".toList t2024).map (fun p => endsTwoNl p.1) = some true := by
  decide

/-- Claim C4 (amended: the output never ends in two consecutive newlines
*unless the message itself already does*): `TextFormatter.Format` appends
exactly one newline after the message iff the message is empty or does not
end with a newline, appends nothing otherwise, and — when the message does
not itself end in two newlines — the output does not end in two newlines. -/
theorem text_newline_policy (lvl : Level) (msg : List Char) (t : Time) (hv : t.Valid) :
    runText lvl msg t = some (textLine lvl msg t, none) ∧
      (msg = [] ∨ msg.getLast? ≠ some '\n' → nlSuffix msg = ['\n']) ∧
      (msg ≠ [] ∧ msg.getLast? = some '\n' → nlSuffix msg = []) ∧
      (endsTwoNl msg = false → endsTwoNl (textLine lvl msg t) = false) := by
  refine ⟨runText_eq lvl msg t hv, fun hc => by simp [nlSuffix, hc], fun hc => ?_,
    textLine_no_double lvl msg t⟩
  unfold nlSuffix
  rw [if_neg]
  push_neg
  exact ⟨hc.1, hc.2⟩

/-- Witness for C4 at level Info, message `"hello"`, the 2024 timestamp. -/
theorem text_newline_policy_w :
    runText Nfo "hello".toList t2024 = some (textLine Nfo "hello".toList t2024, none) ∧
      ("hello".toList = [] ∨ "hello".toList.getLast? ≠ some '\n' →
        nlSuffix "hello".toList = ['\n']) ∧
      ("hello".toList ≠ [] ∧ "hello".toList.getLast? = some '\n' →
        nlSuffix "hello".toList = []) ∧
      (endsTwoNl "hello".toList = false →
        endsTwoNl (textLine Nfo "hello".toList t2024) = false) :=
  text_newline_policy Nfo "hello".toList t2024 (by decide)

/-- Claim C6: `TextFormatter.Format` returns no error for every input:
write failures in the low-level helpers (`itoa` and `writeString`) are
reported to standard error as a diagnostic — never propagated — so the
top-level call reports success whatever the stream does. -/
theorem textFormat_always_nil (fails : Nat → Option String) (s0 : WState) (l : Logger)
    (msg : List Char) (t : Time) (hv : t.Valid) :
    (textFormat fails s0 l msg t).map Prod.snd = some none ∧
      (∀ (s : WState) (str : List Char) (e : String), fails s.idx = some e →
        writeString fails s str
          = { out := s.out,
              errOut := s.errOut ++ ["could not write entry log, err: " ++ e],
              idx := s.idx + 1 }) :=
  ⟨textFormat_returns_nil fails s0 l msg t hv,
    fun s str e h => writeString_fails fails s str e h⟩

/-- Witness for C6: even on a stream whose every write fails, `Format`
returns `nil`, and a failing `writeString` leaves its diagnostic on
standard error. -/
theorem textFormat_always_nil_w :
    (textFormat (fun _ => some "disk full") ⟨[], [], 0⟩ ⟨fun _ => none, Nfo⟩
        "a".toList t2024).map Prod.snd = some none ∧
      writeString (fun _ => some "disk full") ⟨[], [], 0⟩ "a".toList
        = { out := [],
            errOut := [] ++ ["could not write entry log, err: " ++ "disk full"],
            idx := 0 + 1 } :=
  ⟨(textFormat_always_nil (fun _ => some "disk full") ⟨[], [], 0⟩ ⟨fun _ => none, Nfo⟩
      "a".toList t2024 (by decide)).1,
    (textFormat_always_nil (fun _ => some "disk full") ⟨[], [], 0⟩ ⟨fun _ => none, Nfo⟩
      "a".toList t2024 (by decide)).2 ⟨[], [], 0⟩ "a".toList "disk full" rfl⟩

/-- Claim C9: a logger level that is none of the five known severity values
yields an empty level label — zero characters where a known level produces
four — no error, and the rest of the line (date, time, message, newline
handling) exactly as for a known level. -/
theorem unknown_level_empty_label (lvl : Level) (msg : List Char) (t : Time) (hv : t.Valid)
    (h1 : lvl ≠ Dbg) (h2 : lvl ≠ Nfo) (h3 : lvl ≠ Wrn) (h4 : lvl ≠ Err) (h5 : lvl ≠ Ftl) :
    levelLabel lvl = "" ∧
      runText lvl msg t = some (textStamp t ++ [' '] ++ msg ++ nlSuffix msg, none) := by
  have hl : levelLabel lvl = "" := by
    unfold levelLabel
    rw [if_neg h1, if_neg h2, if_neg h3, if_neg h4, if_neg h5]
  refine ⟨hl, ?_⟩
  rw [runText_eq lvl msg t hv]
  unfold textLine
  rw [hl]
  have hemp : ("" : String).toList = ([] : List Char) := rfl
  rw [hemp]
  simp [List.append_assoc]

/-- Witness for C9 at the out-of-range level value 9. -/
theorem unknown_level_empty_label_w :
    levelLabel 9 = "" ∧
      runText 9 "hi".toList t2024
        = some (textStamp t2024 ++ [' '] ++ "hi".toList ++ nlSuffix "hi".toList, none) :=
  unknown_level_empty_label 9 "hi".toList t2024 (by decide) (by decide) (by decide)
    (by decide) (by decide) (by decide)

/-!  The structured formatter. -/

/-- The field mapping `JSONFormatter.Format` hands to the encoder is the
caller's mapping with the three reserved keys injected, on both the success
and the failure path. -/
theorem jsonFormat_fst (encode : Fields → Option String) (l : Logger) (msg : String)
    (t : Time) : (jsonFormat encode l msg t).1 = injectFields l msg t := by
  unfold jsonFormat
  rcases h : encode (injectFields l msg t) with _ | e <;> simp [h]

/-- Claim C7: every call of `JSONFormatter.Format` sets the keys `"msg"`,
`"timestamp"` and `"level"` of the field mapping to the call's message,
formatted timestamp and level name — overwriting whatever was there — while
every other key keeps its previous value; a second call with the same
message, timestamp and level leaves the same three injected values. -/
theorem json_inject (encode : Fields → Option String) (l : Logger) (msg : String) (t : Time) :
    ((jsonFormat encode l msg t).1 "msg" = some (Value.str msg)) ∧
      ((jsonFormat encode l msg t).1 "timestamp" = some (Value.str (getTimestamp t))) ∧
      ((jsonFormat encode l msg t).1 "level" = some (Value.str (levelString l.logLevel))) ∧
      (∀ k, k ≠ "msg" → k ≠ "timestamp" → k ≠ "level" →
        (jsonFormat encode l msg t).1 k = l.fields k) ∧
      (∀ encode2 : Fields → Option String,
        (jsonFormat encode2 ⟨(jsonFormat encode l msg t).1, l.logLevel⟩ msg t).1 "msg"
            = (jsonFormat encode l msg t).1 "msg" ∧
          (jsonFormat encode2 ⟨(jsonFormat encode l msg t).1, l.logLevel⟩ msg t).1 "timestamp"
            = (jsonFormat encode l msg t).1 "timestamp" ∧
          (jsonFormat encode2 ⟨(jsonFormat encode l msg t).1, l.logLevel⟩ msg t).1 "level"
            = (jsonFormat encode l msg t).1 "level") := by
  have hm : ∀ (enc : Fields → Option String) (lg : Logger),
      (jsonFormat enc lg msg t).1 "msg" = some (Value.str msg) := by
    intro enc lg
    rw [jsonFormat_fst]
    simp [injectFields, Fields.insert]
  have ht : ∀ (enc : Fields → Option String) (lg : Logger),
      (jsonFormat enc lg msg t).1 "timestamp" = some (Value.str (getTimestamp t)) := by
    intro enc lg
    rw [jsonFormat_fst]
    simp [injectFields, Fields.insert]
  have hlv : ∀ (enc : Fields → Option String) (lg : Logger),
      (jsonFormat enc lg msg t).1 "level" = some (Value.str (levelString lg.logLevel)) := by
    intro enc lg
    rw [jsonFormat_fst]
    simp [injectFields, Fields.insert]
  have hk : ∀ (enc : Fields → Option String) (lg : Logger) k,
      k ≠ "msg" → k ≠ "timestamp" → k ≠ "level" →
      (jsonFormat enc lg msg t).1 k = lg.fields k := by
    intro enc lg k h1 h2 h3
    rw [jsonFormat_fst]
    simp [injectFields, Fields.insert, h1, h2, h3]
  refine ⟨hm encode l, ht encode l, hlv encode l, hk encode l, fun encode2 => ?_⟩
  refine ⟨?_, ?_, ?_⟩
  · rw [hm encode2, hm encode]
  · rw [ht encode2, ht encode]
  · rw [hlv encode2, hlv encode]

/-- Concrete logger: one caller field `"user" = "a"`, level Error. -/
def loggerW : Logger := ⟨fun k => if k = "user" then some (Value.str "a") else none, Err⟩

/-- Witness for C7: the injected `"msg"` value and the untouched caller key
`"user"` on a concrete logger. -/
theorem json_inject_w :
    (jsonFormat (fun _ => none) loggerW "m" t2024).1 "msg" = some (Value.str "m") ∧
      (jsonFormat (fun _ => none) loggerW "m" t2024).1 "user" = loggerW.fields "user" :=
  ⟨(json_inject (fun _ => none) loggerW "m" t2024).1,
    (json_inject (fun _ => none) loggerW "m" t2024).2.2.2.1 "user" (by decide) (by decide)
      (by decide)⟩

/-- Claim C8: `JSONFormatter.Format` returns an error iff encoding the field
mapping fails, and the returned error wraps the encoder's error with the
context `failed to marshal fields to JSON, `; on encoder success it returns
no error. -/
theorem json_error_wrapping (encode : Fields → Option String) (l : Logger) (msg : String)
    (t : Time) :
    ((jsonFormat encode l msg t).2 = none ↔ encode (jsonFormat encode l msg t).1 = none) ∧
      (∀ e, encode (jsonFormat encode l msg t).1 = some e →
        (jsonFormat encode l msg t).2 = some ("failed to marshal fields to JSON, " ++ e)) := by
  rw [jsonFormat_fst]
  unfold jsonFormat
  rcases h : encode (injectFields l msg t) with _ | e <;> simp [h]

/-- Witness for C8: an encoder that fails with `"boom"` makes the call
return the wrapped error. -/
theorem json_error_wrapping_w :
    (jsonFormat (fun _ => some "boom") loggerW "m" t2024).2
      = some ("failed to marshal fields to JSON, " ++ "boom") :=
  (json_error_wrapping (fun _ => some "boom") loggerW "m" t2024).2 "boom" rfl

end Wlog
